import Mathlib

/-!
Verification of the Tetrois game core (tetrois.cpp).

The definitions below are a shallow embedding of the C++ source:
Position, Tetromino, Block, and the Tetris board class with its
operations (isInside, isOccupied, checkCollision, lockTetromino,
clearLines, getGhost), together with the game loop state and its
transitions (input dispatch, gravity, spawning) from gameLoop.
Machine ints are modelled as Int (coordinates, times) or Nat
(counters that stay non-negative); the std::vector grid is a List.
-/

set_option maxHeartbeats 1000000

/-- Two dimensional integer position, from struct Position. -/
structure Position where
  x : Int
  y : Int
deriving DecidableEq, Repr

/-- Componentwise addition, from Position::operator+. -/
instance : Add Position := ⟨fun a b => ⟨a.x + b.x, a.y + b.y⟩⟩

theorem Position.add_def (a b : Position) : a + b = ⟨a.x + b.x, a.y + b.y⟩ := rfl

def VEC_DOWN : Position := ⟨0, 1⟩
def VEC_LEFT : Position := ⟨-1, 0⟩
def VEC_RIGHT : Position := ⟨1, 0⟩

/-- A falling piece, from struct Tetromino: a list of absolute block
positions, a curses color pair and the shape index. -/
structure Tetromino where
  blocks : List Position
  colorPair : Int
  shapeIdx : Nat
deriving DecidableEq, Repr

/-- Translation of every block, from Tetromino::move. -/
def Tetromino.move (t : Tetromino) (direction : Position) : Tetromino :=
  { t with blocks := t.blocks.map (fun block => block + direction) }

/-- Rotation about the first block, from Tetromino::rotate.  The O piece
(shapeIdx 0) is returned unchanged; otherwise every block is mapped to
(center.x - rel_y, center.y + rel_x) where center is blocks[0]. -/
def Tetromino.rotate (t : Tetromino) : Tetromino :=
  if t.shapeIdx = 0 then t
  else
    let center := t.blocks.headD ⟨0, 0⟩
    { t with blocks := t.blocks.map (fun block =>
        ⟨center.x - (block.y - center.y), center.y + (block.x - center.x)⟩) }

/-- One grid cell, from struct Block. -/
structure Block where
  colorPair : Int
  occupied : Bool
deriving DecidableEq, Repr

/-- The value produced by the Block default constructor. -/
def Block.default : Block := ⟨0, false⟩

/-- The board, from class Tetris: dimensions and a flat row-major grid
vector of rows * cols cells. -/
structure Tetris where
  rows : Nat
  cols : Nat
  grid : List Block
deriving DecidableEq, Repr

/-- Bounds test, from Tetris::isInside. -/
def Tetris.isInside (g : Tetris) (p : Position) : Bool :=
  0 ≤ p.x && p.x < (g.cols : Int) && 0 ≤ p.y && p.y < (g.rows : Int)

/-- Occupancy test, from Tetris::isOccupied: out of bounds positions
count as occupied walls, in bounds positions read the grid cell. -/
def Tetris.isOccupied (g : Tetris) (p : Position) : Bool :=
  if !g.isInside p then true
  else (g.grid.getD (p.y * (g.cols : Int) + p.x).toNat Block.default).occupied

/-- Collision test, from Tetris::checkCollision: true iff some block of
the piece is occupied. -/
def Tetris.checkCollision (g : Tetris) (t : Tetromino) : Bool :=
  t.blocks.any (fun b => g.isOccupied b)

/-- Locking, from Tetris::lockTetromino: every in bounds block cell is
marked occupied with the piece color; out of bounds blocks are skipped. -/
def Tetris.lockTetromino (g : Tetris) (t : Tetromino) : Tetris :=
  { g with grid := t.blocks.foldl (fun acc b =>
      if !g.isInside b then acc
      else acc.set (b.y * (g.cols : Int) + b.x).toNat ⟨t.colorPair, true⟩) g.grid }

/-- Fullness of one row, from the scan loop in Tetris::clearLines. -/
def Tetris.rowFull (g : Tetris) (y : Nat) : Bool :=
  (List.range g.cols).all (fun x => (g.grid.getD (y * g.cols + x) Block.default).occupied)

/-- The indices of all full rows, in increasing order, from the first
loop of Tetris::clearLines. -/
def Tetris.linesToClear (g : Tetris) : List Nat :=
  (List.range g.rows).filter (fun y => g.rowFull y)

/-- Copy of one source row of the old grid into the target row of the
grid being rebuilt, from the inner x loop of Tetris::clearLines. -/
def copyRow (gr : List Block) (cols : Nat) (src : List Block) (srcY : Nat) (dstY : Int) :
    List Block :=
  (List.range cols).foldl (fun ng (x : Nat) =>
    ng.set (dstY * (cols : Int) + (x : Int)).toNat (src.getD (srcY * cols + x) Block.default)) gr

/-- One step of the rebuild loop of Tetris::clearLines: a full row is
skipped, any other row is copied to the current target row. -/
def clearFold (g : Tetris) (lines : List Nat) (st : List Block × Int) (y : Nat) :
    List Block × Int :=
  if y ∈ lines then st
  else (copyRow st.1 g.cols g.grid y st.2, st.2 - 1)

/-- Line clearing, from Tetris::clearLines: if no row is full, the board
is returned unchanged with count 0; otherwise the grid is rebuilt bottom
up from the non full rows and the count of full rows is returned. -/
def Tetris.clearLines (g : Tetris) : Tetris × Nat :=
  let lines := g.linesToClear
  if lines = [] then (g, 0)
  else
    let res := (List.range g.rows).reverse.foldl (clearFold g lines)
      (List.replicate (g.rows * g.cols) Block.default, (g.rows : Int) - 1)
    ({ g with grid := res.1 }, lines.length)

/-- Descent loop of Tetris::getGhost: move the piece down until it
collides.  The C++ while loop never terminates on a piece without
blocks; pieces always have four, and the embedding returns such a piece
unchanged. -/
def ghostLoop (g : Tetris) (t : Tetromino) : Tetromino :=
  if hc : g.checkCollision t then t
  else if hb : t.blocks = [] then t
  else ghostLoop g (t.move VEC_DOWN)
termination_by ((g.rows : Int) + 1 - (t.blocks.headD ⟨0, 0⟩).y).toNat
decreasing_by
  simp only [Tetris.checkCollision, List.any_eq_true, not_exists, not_and] at hc
  push_neg at hc
  obtain ⟨b, bs, hbs⟩ := List.exists_cons_of_ne_nil hb
  have hocc : g.isOccupied b = false := by
    have := hc b (by rw [hbs]; exact List.mem_cons_self b bs)
    simpa using this
  rw [Tetris.isOccupied] at hocc
  split at hocc
  · exact absurd hocc (by simp)
  · rename_i hin
    simp only [Bool.not_eq_true', Bool.not_eq_false] at hin
    rw [Tetris.isInside] at hin
    simp only [Bool.and_eq_true, decide_eq_true_eq] at hin
    have hy0 : 0 ≤ b.y := hin.1.2
    have hy1 : b.y < (g.rows : Int) := hin.2
    have hhead : t.blocks.headD ⟨0, 0⟩ = b := by rw [hbs]; rfl
    have hhead2 : ((t.move VEC_DOWN).blocks.headD ⟨0, 0⟩) = b + VEC_DOWN := by
      rw [Tetromino.move, hbs]; rfl
    rw [hhead, hhead2]
    simp only [Position.add_def, VEC_DOWN]
    omega

/-- Ghost projection, from Tetris::getGhost: drop until collision, then
step back up one cell. -/
def Tetris.getGhost (g : Tetris) (t : Tetromino) : Tetromino :=
  (ghostLoop g t).move ⟨0, -1⟩

/- Game loop constants and state, from gameLoop in tetrois.cpp. -/

def GRID_ROWS : Nat := 20
def GRID_COLS : Nat := 10
def PAIR_PIECE_BASE : Int := 10

/-- Scoring table, from the lineScores array in gameLoop. -/
def lineScores : List Nat := [0, 40, 100, 300, 1200]

/-- The seven spawn templates, from the shapes vector in gameLoop. -/
def shapes : List (List Position) :=
  [[⟨4, 0⟩, ⟨5, 0⟩, ⟨4, 1⟩, ⟨5, 1⟩],
   [⟨3, 0⟩, ⟨4, 0⟩, ⟨5, 0⟩, ⟨6, 0⟩],
   [⟨5, 0⟩, ⟨6, 0⟩, ⟨4, 1⟩, ⟨5, 1⟩],
   [⟨4, 0⟩, ⟨5, 0⟩, ⟨5, 1⟩, ⟨6, 1⟩],
   [⟨4, 0⟩, ⟨5, 0⟩, ⟨6, 0⟩, ⟨5, 1⟩],
   [⟨4, 0⟩, ⟨5, 0⟩, ⟨6, 0⟩, ⟨4, 1⟩],
   [⟨4, 0⟩, ⟨5, 0⟩, ⟨6, 0⟩, ⟨6, 1⟩]]

/-- Piece construction, from the getNewTetromino lambda in gameLoop (the
random index is a parameter here). -/
def mkTetromino (idx : Fin 7) : Tetromino :=
  { colorPair := PAIR_PIECE_BASE + (idx : Int), blocks := shapes.getD idx [], shapeIdx := idx }

/-- The mutable state of gameLoop: board, flags, counters, the active
and next pieces and the gravity timing data (times in milliseconds). -/
structure GameState where
  game : Tetris
  gameOver : Bool
  score : Nat
  level : Nat
  totalLines : Nat
  highscore : Nat
  tetromino : Tetromino
  nextT : Tetromino
  lastDrop : Int
  dropIntervalMs : Int
deriving Repr

/-- The state at the top of gameLoop: empty 20 by 10 board, score 0,
level 1, high score as loaded from the file, two freshly spawned pieces,
drop interval 800 ms. -/
def initState (hs : Nat) (t0 : Int) (i j : Fin 7) : GameState :=
  { game := ⟨GRID_ROWS, GRID_COLS, List.replicate (GRID_ROWS * GRID_COLS) Block.default⟩
    gameOver := false
    score := 0
    level := 1
    totalLines := 0
    highscore := hs
    tetromino := mkTetromino i
    nextT := mkTetromino j
    lastDrop := t0
    dropIntervalMs := 800 }

/-- The keyboard commands dispatched by gameLoop. -/
inductive GameInput
  | quit
  | left
  | right
  | softDrop
  | rotateKey
  | hardDrop
deriving DecidableEq, Repr

/-- Hard drop descent, from the space branch of gameLoop: move the
active piece down until it collides.  As with ghostLoop, the embedding
returns a blockless piece unchanged where the C++ loop never ends. -/
def dropLoop (g : Tetris) (t : Tetromino) : Tetromino :=
  if hc : g.checkCollision t then t
  else if hb : t.blocks = [] then t
  else dropLoop g (t.move VEC_DOWN)
termination_by ((g.rows : Int) + 1 - (t.blocks.headD ⟨0, 0⟩).y).toNat
decreasing_by
  simp only [Tetris.checkCollision, List.any_eq_true, not_exists, not_and] at hc
  push_neg at hc
  obtain ⟨b, bs, hbs⟩ := List.exists_cons_of_ne_nil hb
  have hocc : g.isOccupied b = false := by
    have := hc b (by rw [hbs]; exact List.mem_cons_self b bs)
    simpa using this
  rw [Tetris.isOccupied] at hocc
  split at hocc
  · exact absurd hocc (by simp)
  · rename_i hin
    simp only [Bool.not_eq_true', Bool.not_eq_false] at hin
    rw [Tetris.isInside] at hin
    simp only [Bool.and_eq_true, decide_eq_true_eq] at hin
    have hy0 : 0 ≤ b.y := hin.1.2
    have hy1 : b.y < (g.rows : Int) := hin.2
    have hhead : t.blocks.headD ⟨0, 0⟩ = b := by rw [hbs]; rfl
    have hhead2 : ((t.move VEC_DOWN).blocks.headD ⟨0, 0⟩) = b + VEC_DOWN := by
      rw [Tetromino.move, hbs]; rfl
    rw [hhead, hhead2]
    simp only [Position.add_def, VEC_DOWN]
    omega

/-- Input dispatch, from the getch branches of gameLoop.  Moves and
rotations are committed only when the candidate does not collide; the
rotation tries two wall kick fallbacks; hard drop descends the piece and
backdates the gravity timestamp by ten seconds. -/
def applyInput (s : GameState) (now : Int) : GameInput → GameState
  | .quit => { s with gameOver := true }
  | .left =>
      let temp := s.tetromino.move VEC_LEFT
      if !s.game.checkCollision temp then { s with tetromino := temp } else s
  | .right =>
      let temp := s.tetromino.move VEC_RIGHT
      if !s.game.checkCollision temp then { s with tetromino := temp } else s
  | .softDrop =>
      let temp := s.tetromino.move VEC_DOWN
      if !s.game.checkCollision temp then { s with tetromino := temp } else s
  | .rotateKey =>
      let temp := s.tetromino.rotate
      if !s.game.checkCollision temp then { s with tetromino := temp }
      else
        let kicked := temp.move VEC_RIGHT
        if !s.game.checkCollision kicked then { s with tetromino := kicked }
        else
          let kicked2 := (temp.move VEC_LEFT).move VEC_LEFT
          if !s.game.checkCollision kicked2 then { s with tetromino := kicked2 }
          else s
  | .hardDrop =>
      { s with
        tetromino := (dropLoop s.game s.tetromino).move ⟨0, -1⟩
        lastDrop := now - 10000 }

/-- The scoring block of the gravity tick, from the if (cleared > 0)
body in gameLoop: add lineScores[cleared] * level to the score with the
level still in effect, account the cleared lines, recompute the level
and the drop interval, and raise the in memory high score when the score
exceeds it.  When cleared is 0 the state is untouched. -/
def applyClearScoring (s : GameState) (cleared : Nat) : GameState :=
  if 0 < cleared then
    let score := s.score + lineScores.getD cleared 0 * s.level
    let totalLines := s.totalLines + cleared
    let level := totalLines / 10 + 1
    let dropMs := max 100 (800 - (level : Int) * 50)
    let highscore := if s.highscore < score then score else s.highscore
    { s with
      score := score
      totalLines := totalLines
      level := level
      dropIntervalMs := dropMs
      highscore := highscore }
  else s

/-- Gravity tick body, from the timed block of gameLoop: move down if
possible, otherwise lock the piece, clear lines, update the counters
when lines were cleared, promote the next piece, spawn a new next piece
and detect a blocked spawn. -/
def gravityStep (s : GameState) (now : Int) (idx : Fin 7) : GameState :=
  let temp := s.tetromino.move VEC_DOWN
  if !s.game.checkCollision temp then
    { s with tetromino := temp, lastDrop := now }
  else
    let game1 := s.game.lockTetromino s.tetromino
    let cleared := game1.clearLines.2
    let game2 := game1.clearLines.1
    let s1 := applyClearScoring s cleared
    { s1 with
      game := game2
      gameOver := s.gameOver || game2.checkCollision s.nextT
      tetromino := s.nextT
      nextT := mkTetromino idx
      lastDrop := now }

/-- One observable transition of gameLoop: either an input is dispatched
or the gravity interval has elapsed and a tick fires. -/
inductive Step : GameState → GameState → Prop
  | input (s : GameState) (inp : GameInput) (now : Int) : Step s (applyInput s now inp)
  | tick (s : GameState) (now : Int) (idx : Fin 7)
      (h : now - s.lastDrop > s.dropIntervalMs) : Step s (gravityStep s now idx)

/-- The states a game session can reach from a fresh start with the
given loaded high score. -/
inductive Reachable (hs : Nat) : GameState → Prop
  | init (t0 : Int) (i j : Fin 7) : Reachable hs (initState hs t0 i j)
  | step {s s' : GameState} : Reachable hs s → Step s s' → Reachable hs s'

/-- Startup read of highscore.txt, from the ifstream block of gameLoop:
a missing or unreadable file leaves the initial value 0. -/
def loadHighScore (file : Option Nat) : Nat := file.getD 0

/-- Session end write, from the final block of gameLoop: the file is
overwritten with the final score iff finalScore >= highscore; none means
the file is left untouched. -/
def sessionEndWrite (s : GameState) : Option Nat :=
  if s.highscore ≤ s.score then some s.score else none

/-- The rows of index below m that are not in the cleared set, scanned
from the bottom up, exactly in the order the rebuild loop of clearLines
visits and copies them. -/
def keptDesc (lines : List Nat) (m : Nat) : List Nat :=
  (List.range m).reverse.filter (fun y => decide (y ∉ lines))

/-- The non full rows of the board, top to bottom. -/
def Tetris.keptRows (g : Tetris) : List Nat :=
  (List.range g.rows).filter (fun y => !g.rowFull y)

/-- A board with no full row: the scan of clearLines finds nothing. -/
def Tetris.noFullRows (g : Tetris) : Prop := g.linesToClear = []

/-- A small concrete board used to exercise the theorems: two rows, two
columns, the top row full and the bottom row half filled. -/
def exBoard : Tetris := ⟨2, 2, [⟨1, true⟩, ⟨1, true⟩, ⟨2, true⟩, ⟨0, false⟩]⟩

/-- A concrete loop state on a one by one board whose single block piece
is wedged against every wall, used to exercise rejected moves. -/
def c6State : GameState :=
  { game := ⟨1, 1, [Block.default]⟩
    gameOver := false
    score := 0
    level := 1
    totalLines := 0
    highscore := 0
    tetromino := ⟨[⟨0, 0⟩], 10, 1⟩
    nextT := ⟨[⟨0, 0⟩], 10, 1⟩
    lastDrop := 0
    dropIntervalMs := 800 }

/-- A concrete loop state on a one by one board whose piece rests on the
floor, so the next gravity tick is a lock event that clears one line. -/
def c4State : GameState :=
  { game := ⟨1, 1, [Block.default]⟩
    gameOver := false
    score := 7
    level := 2
    totalLines := 3
    highscore := 10
    tetromino := ⟨[⟨0, 0⟩], 10, 1⟩
    nextT := ⟨[⟨0, 0⟩], 10, 1⟩
    lastDrop := 0
    dropIntervalMs := 800 }

/-- The inductive invariant of the game loop: fixed board dimensions,
a non colliding active piece while the session runs, no full row left on
the board, four blocks in each piece, a drop interval of at most 800 ms,
and an in memory high score equal to the maximum of the loaded high
score and the running score. -/
def LoopInv (hs : Nat) (s : GameState) : Prop :=
  s.game.rows = GRID_ROWS ∧
  s.game.cols = GRID_COLS ∧
  (s.gameOver = false → s.game.checkCollision s.tetromino = false) ∧
  s.game.noFullRows ∧
  s.tetromino.blocks.length = 4 ∧
  s.nextT.blocks.length = 4 ∧
  s.dropIntervalMs ≤ 800 ∧
  s.highscore = max hs s.score

/- Generic helpers about list cells and indices. -/

theorem getD_set {α : Type} (l : List α) (i j : Nat) (a d : α) :
    (l.set i a).getD j d = if i = j ∧ j < l.length then a else l.getD j d := by
  simp only [List.getD_eq_getElem?_getD, List.getElem?_set]
  rcases eq_or_ne i j with rfl | h
  · rcases Nat.lt_or_ge i l.length with h2 | h2
    · simp [h2]
    · have hnone : l[i]? = none := List.getElem?_eq_none h2
      simp [Nat.not_lt.2 h2, hnone]
  · simp [h]

theorem rowcol_inj {c r d x x' : Nat} (hx : x < c) (hx' : x' < c)
    (h : r * c + x = d * c + x') : r = d ∧ x = x' := by
  have hc : 0 < c := Nat.lt_of_le_of_lt (Nat.zero_le x) hx
  have h1 : (r * c + x) / c = r := by
    rw [Nat.mul_comm r c, Nat.mul_add_div hc, Nat.div_eq_of_lt hx, Nat.add_zero]
  have h2 : (d * c + x') / c = d := by
    rw [Nat.mul_comm d c, Nat.mul_add_div hc, Nat.div_eq_of_lt hx', Nat.add_zero]
  have hrd : r = d := by rw [← h1, ← h2, h]
  refine ⟨hrd, ?_⟩
  rw [hrd] at h
  exact Nat.add_left_cancel h

theorem getD_replicate_self {α : Type} (n i : Nat) (a : α) :
    (List.replicate n a).getD i a = a := by
  rw [List.getD_eq_getElem?_getD]
  rcases Nat.lt_or_ge i n with h | h
  · simp [List.getElem?_replicate, h]
  · simp [List.getElem?_replicate, Nat.not_lt.2 h]

theorem copyRow_length (gr src : List Block) (cols srcY : Nat) (dstY : Int) :
    (copyRow gr cols src srcY dstY).length = gr.length := by
  rw [copyRow]
  generalize List.range cols = xs
  induction xs generalizing gr with
  | nil => rfl
  | cons x xs ih => rw [List.foldl_cons, ih, List.length_set]

/- Helpers about piece movement. -/

theorem Position.add_assoc_custom (x a b : Position) : x + a + b = x + (a + b) := by
  cases x; cases a; cases b
  simp [Position.add_def, Int.add_assoc]

theorem Tetromino.move_move (t : Tetromino) (a b : Position) :
    (t.move a).move b = t.move (a + b) := by
  cases t
  simp only [Tetromino.move, List.map_map]
  congr 1
  apply List.map_congr_left
  intro x _
  exact Position.add_assoc_custom x a b

theorem Tetromino.move_zero (t : Tetromino) : t.move ⟨0, 0⟩ = t := by
  cases t
  simp [Tetromino.move, Position.add_def]

theorem Tetromino.move_length (t : Tetromino) (d : Position) :
    (t.move d).blocks.length = t.blocks.length := by
  simp [Tetromino.move]

theorem foldl_set_length {α : Type} (xs : List Nat) (idx : Nat → Nat) (v : Nat → α) :
    ∀ gr : List α, (xs.foldl (fun g x => g.set (idx x) (v x)) gr).length = gr.length := by
  induction xs with
  | nil => intro gr; rfl
  | cons x xs ih => intro gr; rw [List.foldl_cons, ih, List.length_set]

theorem copyRow_aux (src : List Block) (cols srcY dY : Nat) :
    ∀ (n : Nat), n ≤ cols →
    ∀ (gr : List Block), (dY + 1) * cols ≤ gr.length →
    ∀ (r x : Nat), x < cols →
    ((List.range n).foldl (fun ng (x : Nat) =>
        ng.set (((dY : Nat) : Int) * (cols : Int) + (x : Int)).toNat
          (src.getD (srcY * cols + x) Block.default)) gr).getD (r * cols + x) Block.default =
      (if r = dY ∧ x < n then src.getD (srcY * cols + x) Block.default
       else gr.getD (r * cols + x) Block.default) := by
  intro n
  induction n with
  | zero =>
      intro _ gr _ r x hx
      simp
  | succ n ih =>
      intro hn gr hlen r x hx
      have hncols : n < cols := hn
      rw [List.range_succ, List.foldl_append]
      simp only [List.foldl_cons, List.foldl_nil]
      have hidx : (((dY : Nat) : Int) * (cols : Int) + ((n : Nat) : Int)).toNat = dY * cols + n := by
        have hcast : ((dY : Nat) : Int) * (cols : Int) + ((n : Nat) : Int)
            = ((dY * cols + n : Nat) : Int) := by push_cast; ring
        rw [hcast, Int.toNat_natCast]
      rw [hidx, getD_set]
      have hflen : ((List.range n).foldl (fun ng (x : Nat) =>
          ng.set (((dY : Nat) : Int) * (cols : Int) + (x : Int)).toNat
            (src.getD (srcY * cols + x) Block.default)) gr).length = gr.length :=
        foldl_set_length (List.range n)
          (fun x => (((dY : Nat) : Int) * (cols : Int) + (x : Int)).toNat)
          (fun x => src.getD (srcY * cols + x) Block.default) gr
      by_cases hcase : r = dY ∧ x = n
      · obtain ⟨rfl, rfl⟩ := hcase
        have hin : r * cols + x < gr.length := by
          have : r * cols + x < (r + 1) * cols := by
            have : (r + 1) * cols = r * cols + cols := by ring
            omega
          omega
        rw [if_pos ⟨rfl, by omega⟩, if_pos ⟨rfl, by omega⟩]
      · have hne : ¬(dY * cols + n = r * cols + x ∧ r * cols + x < ((List.range n).foldl
            (fun ng (x : Nat) => ng.set (((dY : Nat) : Int) * (cols : Int) + (x : Int)).toNat
              (src.getD (srcY * cols + x) Block.default)) gr).length) := by
          rintro ⟨heq, -⟩
          obtain ⟨h1, h2⟩ := rowcol_inj hncols hx heq
          exact hcase ⟨h1.symm, h2.symm⟩
        rw [if_neg hne, ih (by omega) gr hlen r x hx]
        by_cases hcase2 : r = dY ∧ x < n
        · rw [if_pos hcase2, if_pos ⟨hcase2.1, by omega⟩]
        · have : ¬(r = dY ∧ x < n + 1) := by
            rintro ⟨rfl, hlt⟩
            rcases Nat.lt_succ_iff_lt_or_eq.1 hlt with h | rfl
            · exact hcase2 ⟨rfl, h⟩
            · exact hcase ⟨rfl, rfl⟩
          rw [if_neg hcase2, if_neg this]

theorem copyRow_getD (gr src : List Block) (cols srcY dY : Nat)
    (hlen : (dY + 1) * cols ≤ gr.length) (r x : Nat) (hx : x < cols) :
    (copyRow gr cols src srcY ((dY : Nat) : Int)).getD (r * cols + x) Block.default =
      (if r = dY then src.getD (srcY * cols + x) Block.default
       else gr.getD (r * cols + x) Block.default) := by
  rw [copyRow]
  rw [copyRow_aux src cols srcY dY cols (Nat.le_refl cols) gr hlen r x hx]
  by_cases h : r = dY
  · rw [if_pos ⟨h, hx⟩, if_pos h]
  · rw [if_neg (by rintro ⟨h1, -⟩; exact h h1), if_neg h]

theorem keptDesc_succ (lines : List Nat) (m : Nat) :
    keptDesc lines (m + 1) =
      (if m ∉ lines then m :: keptDesc lines m else keptDesc lines m) := by
  rw [keptDesc, keptDesc, List.range_succ, List.reverse_append]
  simp only [List.reverse_cons, List.reverse_nil, List.nil_append, List.cons_append,
    List.filter_cons]
  by_cases h : m ∈ lines
  · simp [h]
  · simp [h]

theorem clearFold_spec (g : Tetris) (lines : List Nat) :
    ∀ (m : Nat) (gr : List Block) (tY : Int),
    gr.length = g.rows * g.cols →
    ((keptDesc lines m).length : Int) ≤ tY + 1 →
    tY < (g.rows : Int) →
    ((List.range m).reverse.foldl (clearFold g lines) (gr, tY)).2
        = tY - (keptDesc lines m).length ∧
    ((List.range m).reverse.foldl (clearFold g lines) (gr, tY)).1.length = gr.length ∧
    ∀ (r x : Nat), x < g.cols →
      ((List.range m).reverse.foldl (clearFold g lines) (gr, tY)).1.getD
          (r * g.cols + x) Block.default =
        (if tY - (keptDesc lines m).length < (r : Int) ∧ (r : Int) ≤ tY then
          g.grid.getD ((keptDesc lines m).getD (tY - r).toNat 0 * g.cols + x) Block.default
        else gr.getD (r * g.cols + x) Block.default) := by
  intro m
  induction m with
  | zero =>
      intro gr tY hlen hK htY
      refine ⟨by simp [keptDesc], by simp, ?_⟩
      intro r x hx
      have : ¬(tY - (keptDesc lines 0).length < (r : Int) ∧ (r : Int) ≤ tY) := by
        simp only [keptDesc, List.range_zero, List.reverse_nil, List.filter_nil,
          List.length_nil, Nat.cast_zero, Int.sub_zero]
        omega
      simp only [List.range_zero, List.reverse_nil, List.foldl_nil]
      rw [if_neg this]
  | succ m ih =>
      intro gr tY hlen hK htY
      have hrev : (List.range (m + 1)).reverse = m :: (List.range m).reverse := by
        rw [List.range_succ, List.reverse_append]; rfl
      rw [hrev, List.foldl_cons]
      by_cases hm : m ∈ lines
      · -- cleared row: state unchanged, kept list unchanged
        have hfold : clearFold g lines (gr, tY) m = (gr, tY) := by
          rw [clearFold, if_pos hm]
        have hkd : keptDesc lines (m + 1) = keptDesc lines m := by
          rw [keptDesc_succ, if_neg (by simp [hm])]
        rw [hfold, hkd]
        exact ih gr tY hlen (by rw [hkd] at hK; exact hK) htY
      · -- kept row: it is copied to the target row tY
        have hkd : keptDesc lines (m + 1) = m :: keptDesc lines m := by
          rw [keptDesc_succ, if_pos hm]
        rw [hkd] at hK
        have hKlen : ((keptDesc lines m).length : Int) + 1 ≤ tY + 1 := by
          rw [List.length_cons] at hK
          push_cast at hK ⊢
          omega
        have htY0 : 0 ≤ tY := by omega
        obtain ⟨dY, rfl⟩ : ∃ dY : Nat, tY = (dY : Int) := ⟨tY.toNat, (Int.toNat_of_nonneg htY0).symm⟩
        have hfold : clearFold g lines (gr, (dY : Int)) m
            = (copyRow gr g.cols g.grid m (dY : Int), (dY : Int) - 1) := by
          rw [clearFold, if_neg hm]
        rw [hfold]
        have hdYrows : dY < g.rows := by exact_mod_cast htY
        have hcplen : (copyRow gr g.cols g.grid m (dY : Int)).length = gr.length :=
          copyRow_length gr g.grid g.cols m (dY : Int)
        have hcpre : (dY + 1) * g.cols ≤ gr.length := by
          rw [hlen]
          exact Nat.mul_le_mul_right g.cols hdYrows
        have ihres := ih (copyRow gr g.cols g.grid m (dY : Int)) ((dY : Int) - 1)
          (by rw [hcplen, hlen]) (by omega) (by omega)
        obtain ⟨ih1, ih2, ih3⟩ := ihres
        refine ⟨?_, ?_, ?_⟩
        · rw [ih1, hkd, List.length_cons]
          push_cast
          omega
        · rw [ih2, hcplen]
        · intro r x hx
          rw [ih3 r x hx, hkd]
          by_cases hA : ((dY : Int) - 1) - (keptDesc lines m).length < (r : Int)
              ∧ (r : Int) ≤ (dY : Int) - 1
          · -- row written by a later (lower) copy
            rw [if_pos hA, if_pos (by rw [List.length_cons]; push_cast; omega)]
            have hidx : ((dY : Int) - r).toNat = (((dY : Int) - 1) - r).toNat + 1 := by omega
            rw [hidx, List.getD_cons_succ]
          · rw [if_neg hA]
            by_cases hB : ((dY : Int) - ((m :: keptDesc lines m).length : Int) < (r : Int)
                ∧ (r : Int) ≤ (dY : Int))
            · -- this is exactly the row written by the copy of row m
              have hrdY : r = dY := by
                rw [List.length_cons] at hB
                push_cast at hB
                omega
              rw [if_pos hB]
              subst hrdY
              rw [copyRow_getD gr g.grid g.cols m r hcpre r x hx, if_pos rfl]
              have hidx0 : ((r : Int) - r).toNat = 0 := by omega
              rw [hidx0, List.getD_cons_zero]
            · -- untouched row
              have hrne : ¬(r = dY) := by
                rw [List.length_cons] at hB
                push_cast at hB
                intro hEq
                subst hEq
                apply hB
                constructor
                · omega
                · omega
              rw [if_neg hB, copyRow_getD gr g.grid g.cols m dY hcpre r x hx, if_neg hrne]

theorem length_filter_partition {α : Type} (p : α → Bool) (l : List α) :
    (l.filter p).length + (l.filter (fun a => !p a)).length = l.length := by
  induction l with
  | nil => rfl
  | cons a l ih =>
      rw [List.filter_cons, List.filter_cons]
      by_cases h : p a
      · rw [if_pos h, if_neg (by simp [h]), List.length_cons, List.length_cons]
        omega
      · rw [if_neg h, if_pos (by simp [h]), List.length_cons, List.length_cons]
        omega

theorem keptDesc_linesToClear (g : Tetris) :
    keptDesc g.linesToClear g.rows = g.keptRows.reverse := by
  rw [keptDesc, Tetris.keptRows, List.filter_reverse]
  congr 1
  apply List.filter_congr
  intro y hy
  have : (y ∈ g.linesToClear) ↔ g.rowFull y = true := by
    rw [Tetris.linesToClear, List.mem_filter]
    exact ⟨fun h => h.2, fun h => ⟨hy, h⟩⟩
  by_cases h : g.rowFull y
  · simp [this, h]
  · simp [this, h]

theorem rows_eq_cleared_add_kept (g : Tetris) :
    g.rows = g.linesToClear.length + g.keptRows.length := by
  have h := length_filter_partition (fun y => g.rowFull y) (List.range g.rows)
  rw [List.length_range] at h
  rw [Tetris.linesToClear, Tetris.keptRows]
  omega

theorem getD_reverse_nat (l : List Nat) (i : Nat) (h : i < l.length) :
    l.reverse.getD i 0 = l.getD (l.length - 1 - i) 0 := by
  rw [List.getD_eq_getElem l.reverse 0 (by simpa using h),
    List.getD_eq_getElem l 0 (by omega)]
  exact List.getElem_reverse (by simpa using h)

theorem clearLines_eq_nil (g : Tetris) (h0 : g.linesToClear = []) :
    g.clearLines = (g, 0) := by
  rw [Tetris.clearLines]
  simp [h0]

theorem clearLines_eq_of_ne (g : Tetris) (h0 : g.linesToClear ≠ []) :
    g.clearLines = ({ g with grid := ((List.range g.rows).reverse.foldl
        (clearFold g g.linesToClear)
        (List.replicate (g.rows * g.cols) Block.default, (g.rows : Int) - 1)).1 },
      g.linesToClear.length) := by
  rw [Tetris.clearLines]
  simp [h0]

theorem clearLines_snd_eq (g : Tetris) : g.clearLines.2 = g.linesToClear.length := by
  by_cases h0 : g.linesToClear = []
  · rw [clearLines_eq_nil g h0, h0]
    rfl
  · rw [clearLines_eq_of_ne g h0]

theorem clearLines_rows_cols (g : Tetris) :
    g.clearLines.1.rows = g.rows ∧ g.clearLines.1.cols = g.cols := by
  by_cases h0 : g.linesToClear = []
  · rw [clearLines_eq_nil g h0]
    exact ⟨rfl, rfl⟩
  · rw [clearLines_eq_of_ne g h0]
    exact ⟨rfl, rfl⟩

theorem clearLines_cells (g : Tetris) (h0 : g.linesToClear ≠ []) :
    g.clearLines.1.grid.length = g.rows * g.cols ∧
    ∀ r, r < g.rows → ∀ x, x < g.cols →
      g.clearLines.1.grid.getD (r * g.cols + x) Block.default =
        (if r < g.linesToClear.length then Block.default
         else g.grid.getD (g.keptRows.getD (r - g.linesToClear.length) 0 * g.cols + x)
           Block.default) := by
  have hpart := rows_eq_cleared_add_kept g
  have hkd := keptDesc_linesToClear g
  have hkdlen : (keptDesc g.linesToClear g.rows).length = g.keptRows.length := by
    rw [hkd, List.length_reverse]
  obtain ⟨hf1, hf2, hf3⟩ := clearFold_spec g g.linesToClear g.rows
    (List.replicate (g.rows * g.cols) Block.default) ((g.rows : Int) - 1)
    (List.length_replicate _ _)
    (by rw [hkdlen]; push_cast; omega)
    (by omega)
  rw [clearLines_eq_of_ne g h0]
  refine ⟨by rw [hf2, List.length_replicate], ?_⟩
  intro r hr x hx
  rw [hf3 r x hx]
  by_cases hrn : r < g.linesToClear.length
  · rw [if_neg (by rw [hkdlen]; push_cast; omega), if_pos hrn]
    exact getD_replicate_self _ _ _
  · rw [if_pos (by rw [hkdlen]; push_cast; omega), if_neg hrn]
    have hklt : g.rows - 1 - r < g.keptRows.length := by omega
    have htn : ((g.rows : Int) - 1 - (r : Int)).toNat = g.rows - 1 - r := by omega
    rw [htn, hkd, getD_reverse_nat g.keptRows (g.rows - 1 - r) hklt]
    have hidx : g.keptRows.length - 1 - (g.rows - 1 - r)
        = r - g.linesToClear.length := by omega
    rw [hidx]

theorem clearLines_fst_noFullRows (g : Tetris) (hcols : 0 < g.cols) :
    g.clearLines.1.noFullRows := by
  by_cases h0 : g.linesToClear = []
  · rw [clearLines_eq_nil g h0]
    exact h0
  · obtain ⟨hlen, hcell⟩ := clearLines_cells g h0
    obtain ⟨hrows, hcols2⟩ := clearLines_rows_cols g
    rw [Tetris.noFullRows, Tetris.linesToClear, List.filter_eq_nil_iff]
    intro y hy
    rw [List.mem_range, hrows] at hy
    rw [Bool.not_eq_true]
    rw [Tetris.rowFull, List.all_eq_false]
    by_cases hyn : y < g.linesToClear.length
    · refine ⟨0, by rw [List.mem_range]; omega, ?_⟩
      rw [hcols2]
      have := hcell y hy 0 hcols
      rw [Nat.add_zero] at this ⊢
      rw [this, if_pos hyn]
      simp [Block.default]
    · -- the row is a copy of a non full source row
      have hidxlt : y - g.linesToClear.length < g.keptRows.length := by
        have := rows_eq_cleared_add_kept g
        omega
      have hmem : g.keptRows.getD (y - g.linesToClear.length) 0 ∈ g.keptRows := by
        rw [List.getD_eq_getElem g.keptRows 0 hidxlt]
        exact List.getElem_mem hidxlt
      rw [Tetris.keptRows, List.mem_filter] at hmem
      have hsrc : g.rowFull (g.keptRows.getD (y - g.linesToClear.length) 0) = false := by
        have := hmem.2
        simpa using this
      rw [Tetris.rowFull, List.all_eq_false] at hsrc
      obtain ⟨x, hxmem, hxocc⟩ := hsrc
      rw [List.mem_range] at hxmem
      refine ⟨x, by rw [List.mem_range, hcols2]; exact hxmem, ?_⟩
      rw [hcols2]
      rw [hcell y hy x hxmem, if_neg hyn]
      exact hxocc

/- Helpers about locking a piece. -/

theorem inside_index (g : Tetris) (b : Position) (hin : g.isInside b = true) :
    (b.y * (g.cols : Int) + b.x).toNat = b.y.toNat * g.cols + b.x.toNat ∧
    b.x.toNat < g.cols ∧ b.y.toNat < g.rows ∧ 0 ≤ b.x ∧ 0 ≤ b.y := by
  rw [Tetris.isInside] at hin
  simp only [Bool.and_eq_true, decide_eq_true_eq] at hin
  obtain ⟨⟨⟨hx0, hx1⟩, hy0⟩, hy1⟩ := hin
  have hxe : b.x = (b.x.toNat : Int) := (Int.toNat_of_nonneg hx0).symm
  have hye : b.y = (b.y.toNat : Int) := (Int.toNat_of_nonneg hy0).symm
  refine ⟨?_, by omega, by omega, hx0, hy0⟩
  rw [hxe, hye]
  have : ((b.y.toNat : Int)) * (g.cols : Int) + (b.x.toNat : Int)
      = ((b.y.toNat * g.cols + b.x.toNat : Nat) : Int) := by push_cast; ring
  rw [this, Int.toNat_natCast, Int.toNat_natCast, Int.toNat_natCast]

theorem lock_foldl_row_unchanged (g : Tetris) (pc : Int) (y x : Nat) (hx : x < g.cols) :
    ∀ (bs : List Position) (acc : List Block),
    (∀ b ∈ bs, b.y ≠ (y : Int)) →
    (bs.foldl (fun acc b =>
        if !g.isInside b then acc
        else acc.set (b.y * (g.cols : Int) + b.x).toNat ⟨pc, true⟩) acc).getD
      (y * g.cols + x) Block.default = acc.getD (y * g.cols + x) Block.default := by
  intro bs
  induction bs with
  | nil => intro acc _; rfl
  | cons b bs ih =>
      intro acc hb
      rw [List.foldl_cons]
      rw [ih _ (fun c hc => hb c (List.mem_cons_of_mem b hc))]
      by_cases hin : g.isInside b
      · rw [if_neg (by simp [hin])]
        obtain ⟨hidx, hxlt, hylt, hx0, hy0⟩ := inside_index g b hin
        rw [hidx, getD_set]
        rw [if_neg ?_]
        rintro ⟨heq, -⟩
        obtain ⟨h1, -⟩ := rowcol_inj hxlt hx heq
        have : b.y = (y : Int) := by omega
        exact hb b (List.mem_cons_self b bs) this
      · rw [if_pos (by simp [hin])]

theorem lock_row_unchanged (g : Tetris) (t : Tetromino) (y x : Nat) (hx : x < g.cols)
    (hb : ∀ b ∈ t.blocks, b.y ≠ (y : Int)) :
    (g.lockTetromino t).grid.getD (y * g.cols + x) Block.default
      = g.grid.getD (y * g.cols + x) Block.default := by
  rw [Tetris.lockTetromino]
  exact lock_foldl_row_unchanged g t.colorPair y x hx t.blocks g.grid hb

theorem all_congr_mem {α : Type} {p q : α → Bool} :
    ∀ l : List α, (∀ a ∈ l, p a = q a) → l.all p = l.all q := by
  intro l
  induction l with
  | nil => intro _; rfl
  | cons x xs ih =>
      intro hx
      simp only [List.all_cons]
      rw [hx x (by simp), ih (fun b hb => hx b (by simp [hb]))]

theorem lock_rows_cols (g : Tetris) (t : Tetromino) :
    (g.lockTetromino t).rows = g.rows ∧ (g.lockTetromino t).cols = g.cols :=
  ⟨rfl, rfl⟩

theorem cleared_rows_sub_blockRows (g : Tetris) (t : Tetromino) (hnf : g.noFullRows) :
    ∀ y ∈ (g.lockTetromino t).linesToClear, y ∈ t.blocks.map (fun b => b.y.toNat) := by
  intro y hy
  rw [Tetris.linesToClear, List.mem_filter, List.mem_range] at hy
  obtain ⟨hyr, hfull⟩ := hy
  by_contra hnot
  have hbrow : ∀ b ∈ t.blocks, b.y ≠ (y : Int) := by
    intro b hbmem heq
    apply hnot
    rw [List.mem_map]
    exact ⟨b, hbmem, by rw [heq, Int.toNat_natCast]⟩
  -- row y of the locked board equals row y of the old board
  have hrow : (g.lockTetromino t).rowFull y = g.rowFull y := by
    have h1 : (g.lockTetromino t).rowFull y = (List.range g.cols).all
        (fun x => ((g.lockTetromino t).grid.getD (y * g.cols + x) Block.default).occupied) := rfl
    rw [h1, Tetris.rowFull]
    apply all_congr_mem
    intro z hzm
    rw [lock_row_unchanged g t y z (List.mem_range.1 hzm) hbrow]
  rw [Tetris.noFullRows, Tetris.linesToClear, List.filter_eq_nil_iff] at hnf
  have hrows : (g.lockTetromino t).rows = g.rows := rfl
  rw [hrows] at hyr
  exact hnf y (List.mem_range.2 hyr) (by rw [← hrow]; exact hfull)

theorem cleared_le_blocks (g : Tetris) (t : Tetromino) (hnf : g.noFullRows) :
    (g.lockTetromino t).clearLines.2 ≤ t.blocks.length := by
  rw [clearLines_snd_eq]
  have hnd : (g.lockTetromino t).linesToClear.Nodup :=
    (List.nodup_range _).filter _
  have hsub : (g.lockTetromino t).linesToClear.toFinset
      ⊆ (t.blocks.map (fun b => b.y.toNat)).toFinset := by
    intro y hy
    rw [List.mem_toFinset] at hy ⊢
    exact cleared_rows_sub_blockRows g t hnf y hy
  calc (g.lockTetromino t).linesToClear.length
      = (g.lockTetromino t).linesToClear.toFinset.card :=
        (List.toFinset_card_of_nodup hnd).symm
    _ ≤ (t.blocks.map (fun b => b.y.toNat)).toFinset.card := Finset.card_le_card hsub
    _ ≤ (t.blocks.map (fun b => b.y.toNat)).length := List.toFinset_card_le _
    _ = t.blocks.length := List.length_map _ _

/- Helpers about the descent loops. -/

theorem move_blocks_ne_nil (t : Tetromino) (d : Position) (h : t.blocks ≠ []) :
    (t.move d).blocks ≠ [] := by
  rw [Tetromino.move]
  simpa using h

theorem ghostLoop_eq_dropLoop (g : Tetris) (t : Tetromino) :
    ghostLoop g t = dropLoop g t := by
  induction t using dropLoop.induct g with
  | case1 x hx =>
      rw [ghostLoop, dropLoop]
      simp [hx]
  | case2 x hx hb =>
      rw [ghostLoop, dropLoop]
      simp [hx, hb]
  | case3 x hx hb ih =>
      rw [ghostLoop, dropLoop]
      simp only [dif_neg hx, dif_neg hb]
      exact ih

theorem dropLoop_blocks_length (g : Tetris) (t : Tetromino) :
    (dropLoop g t).blocks.length = t.blocks.length := by
  induction t using dropLoop.induct g with
  | case1 x hx => rw [dropLoop]; simp [hx]
  | case2 x hx hb => rw [dropLoop]; simp [hx, hb]
  | case3 x hx hb ih =>
      rw [dropLoop]
      simp only [dif_neg hx, dif_neg hb]
      rw [ih, Tetromino.move_length]

theorem dropLoop_collides (g : Tetris) (t : Tetromino) :
    t.blocks ≠ [] → g.checkCollision t = false →
    g.checkCollision (dropLoop g t) = true := by
  induction t using dropLoop.induct g with
  | case1 x hx =>
      intro _ hc
      rw [hc] at hx
      exact absurd hx (by simp)
  | case2 x hx hb =>
      intro hne _
      exact absurd hb hne
  | case3 x hx hb ih =>
      intro _ _
      rw [dropLoop]
      simp only [dif_neg hx, dif_neg hb]
      by_cases hc2 : g.checkCollision (x.move VEC_DOWN) = true
      · rw [dropLoop]
        simp [hc2]
      · exact ih (move_blocks_ne_nil x VEC_DOWN hb) (by simpa using hc2)

theorem dropLoop_moveUp_safe (g : Tetris) (t : Tetromino) :
    g.checkCollision t = false →
    g.checkCollision ((dropLoop g t).move ⟨0, -1⟩) = false := by
  induction t using dropLoop.induct g with
  | case1 x hx =>
      intro hc
      rw [hc] at hx
      exact absurd hx (by simp)
  | case2 x hx hb =>
      intro _
      rw [dropLoop]
      simp only [dif_neg hx, dif_pos hb]
      have hmb : (x.move ⟨0, -1⟩).blocks = [] := by
        rw [Tetromino.move, hb]
        rfl
      rw [Tetris.checkCollision, hmb]
      rfl
  | case3 x hx hb ih =>
      intro hc
      rw [dropLoop]
      simp only [dif_neg hx, dif_neg hb]
      by_cases hc2 : g.checkCollision (x.move VEC_DOWN) = true
      · rw [dropLoop]
        simp only [dif_pos hc2]
        have : (x.move VEC_DOWN).move ⟨0, -1⟩ = x := by
          rw [Tetromino.move_move]
          show x.move ⟨0, 0⟩ = x
          exact Tetromino.move_zero x
        rw [this]
        exact hc
      · exact ih (by simpa using hc2)

theorem dropLoop_result_rests (g : Tetris) (t : Tetromino) (hne : t.blocks ≠ [])
    (hc : g.checkCollision t = false) :
    g.checkCollision (((dropLoop g t).move ⟨0, -1⟩).move VEC_DOWN) = true := by
  have : ((dropLoop g t).move ⟨0, -1⟩).move VEC_DOWN = dropLoop g t := by
    rw [Tetromino.move_move]
    show (dropLoop g t).move ⟨0, 0⟩ = dropLoop g t
    exact Tetromino.move_zero _
  rw [this]
  exact dropLoop_collides g t hne hc

/- Shape lemmas for the transition functions. -/

theorem applyClearScoring_zero (s : GameState) : applyClearScoring s 0 = s := by
  rw [applyClearScoring]
  simp

theorem applyClearScoring_pos (s : GameState) (cleared : Nat) (h : 0 < cleared) :
    applyClearScoring s cleared = { s with
      score := s.score + lineScores.getD cleared 0 * s.level
      totalLines := s.totalLines + cleared
      level := (s.totalLines + cleared) / 10 + 1
      dropIntervalMs := max 100 (800 - (((s.totalLines + cleared) / 10 + 1 : Nat) : Int) * 50)
      highscore := if s.highscore < s.score + lineScores.getD cleared 0 * s.level
        then s.score + lineScores.getD cleared 0 * s.level else s.highscore } := by
  rw [applyClearScoring]
  simp [h]

theorem gravityStep_fall (s : GameState) (now : Int) (idx : Fin 7)
    (h : s.game.checkCollision (s.tetromino.move VEC_DOWN) = false) :
    gravityStep s now idx
      = { s with tetromino := s.tetromino.move VEC_DOWN, lastDrop := now } := by
  rw [gravityStep]
  simp [h]

theorem gravityStep_lock (s : GameState) (now : Int) (idx : Fin 7)
    (h : s.game.checkCollision (s.tetromino.move VEC_DOWN) = true) :
    gravityStep s now idx
      = { applyClearScoring s (s.game.lockTetromino s.tetromino).clearLines.2 with
          game := (s.game.lockTetromino s.tetromino).clearLines.1
          gameOver := s.gameOver
            || (s.game.lockTetromino s.tetromino).clearLines.1.checkCollision s.nextT
          tetromino := s.nextT
          nextT := mkTetromino idx
          lastDrop := now } := by
  rw [gravityStep]
  simp [h]

theorem mkTetromino_blocks_length (idx : Fin 7) : (mkTetromino idx).blocks.length = 4 := by
  revert idx
  decide

theorem rotate_blocks_length (t : Tetromino) : t.rotate.blocks.length = t.blocks.length := by
  rw [Tetromino.rotate]
  split
  · rfl
  · simp

/- The invariant holds initially and is preserved by every step. -/

theorem initState_inv (hs : Nat) (t0 : Int) (i j : Fin 7) :
    LoopInv hs (initState hs t0 i j) := by
  refine ⟨rfl, rfl, ?_, ?_, mkTetromino_blocks_length i, mkTetromino_blocks_length j,
    by norm_num [initState], ?_⟩
  · intro _
    exact (by decide : ∀ idx : Fin 7, (Tetris.mk GRID_ROWS GRID_COLS
      (List.replicate (GRID_ROWS * GRID_COLS) Block.default)).checkCollision
        (mkTetromino idx) = false) i
  · show (Tetris.mk GRID_ROWS GRID_COLS
      (List.replicate (GRID_ROWS * GRID_COLS) Block.default)).linesToClear = []
    decide
  · show hs = max hs 0
    omega

theorem step_inv (hs : Nat) {s sP : GameState} (hinv : LoopInv hs s) (hstep : Step s sP) :
    LoopInv hs sP := by
  obtain ⟨h1, h2, h3, h4, h5, h6, h7, h8⟩ := hinv
  cases hstep with
  | input inp now =>
      cases inp with
      | quit =>
          refine ⟨h1, h2, ?_, h4, h5, h6, h7, h8⟩
          intro hgo
          simp [applyInput] at hgo
      | left =>
          by_cases hcol : s.game.checkCollision (s.tetromino.move VEC_LEFT) = true
          · have he : applyInput s now .left = s := by
              simp [applyInput, hcol]
            rw [he]
            exact ⟨h1, h2, h3, h4, h5, h6, h7, h8⟩
          · have hcol2 : s.game.checkCollision (s.tetromino.move VEC_LEFT) = false := by
              simpa using hcol
            have he : applyInput s now .left
                = { s with tetromino := s.tetromino.move VEC_LEFT } := by
              simp [applyInput, hcol2]
            rw [he]
            refine ⟨h1, h2, fun _ => hcol2, h4, ?_, h6, h7, h8⟩
            rw [Tetromino.move_length]
            exact h5
      | right =>
          by_cases hcol : s.game.checkCollision (s.tetromino.move VEC_RIGHT) = true
          · have he : applyInput s now .right = s := by
              simp [applyInput, hcol]
            rw [he]
            exact ⟨h1, h2, h3, h4, h5, h6, h7, h8⟩
          · have hcol2 : s.game.checkCollision (s.tetromino.move VEC_RIGHT) = false := by
              simpa using hcol
            have he : applyInput s now .right
                = { s with tetromino := s.tetromino.move VEC_RIGHT } := by
              simp [applyInput, hcol2]
            rw [he]
            refine ⟨h1, h2, fun _ => hcol2, h4, ?_, h6, h7, h8⟩
            rw [Tetromino.move_length]
            exact h5
      | softDrop =>
          by_cases hcol : s.game.checkCollision (s.tetromino.move VEC_DOWN) = true
          · have he : applyInput s now .softDrop = s := by
              simp [applyInput, hcol]
            rw [he]
            exact ⟨h1, h2, h3, h4, h5, h6, h7, h8⟩
          · have hcol2 : s.game.checkCollision (s.tetromino.move VEC_DOWN) = false := by
              simpa using hcol
            have he : applyInput s now .softDrop
                = { s with tetromino := s.tetromino.move VEC_DOWN } := by
              simp [applyInput, hcol2]
            rw [he]
            refine ⟨h1, h2, fun _ => hcol2, h4, ?_, h6, h7, h8⟩
            rw [Tetromino.move_length]
            exact h5
      | rotateKey =>
          by_cases hc1 : s.game.checkCollision s.tetromino.rotate = true
          · by_cases hc2 : s.game.checkCollision (s.tetromino.rotate.move VEC_RIGHT) = true
            · by_cases hc3 : s.game.checkCollision
                  ((s.tetromino.rotate.move VEC_LEFT).move VEC_LEFT) = true
              · have he : applyInput s now .rotateKey = s := by
                  simp [applyInput, hc1, hc2, hc3]
                rw [he]
                exact ⟨h1, h2, h3, h4, h5, h6, h7, h8⟩
              · have hc3f : s.game.checkCollision
                    ((s.tetromino.rotate.move VEC_LEFT).move VEC_LEFT) = false := by
                  simpa using hc3
                have he : applyInput s now .rotateKey = { s with
                    tetromino := (s.tetromino.rotate.move VEC_LEFT).move VEC_LEFT } := by
                  simp [applyInput, hc1, hc2, hc3f]
                rw [he]
                refine ⟨h1, h2, fun _ => hc3f, h4, ?_, h6, h7, h8⟩
                rw [Tetromino.move_length, Tetromino.move_length, rotate_blocks_length]
                exact h5
            · have hc2f : s.game.checkCollision (s.tetromino.rotate.move VEC_RIGHT)
                  = false := by simpa using hc2
              have he : applyInput s now .rotateKey
                  = { s with tetromino := s.tetromino.rotate.move VEC_RIGHT } := by
                simp [applyInput, hc1, hc2f]
              rw [he]
              refine ⟨h1, h2, fun _ => hc2f, h4, ?_, h6, h7, h8⟩
              rw [Tetromino.move_length, rotate_blocks_length]
              exact h5
          · have hc1f : s.game.checkCollision s.tetromino.rotate = false := by
              simpa using hc1
            have he : applyInput s now .rotateKey
                = { s with tetromino := s.tetromino.rotate } := by
              simp [applyInput, hc1f]
            rw [he]
            refine ⟨h1, h2, fun _ => hc1f, h4, ?_, h6, h7, h8⟩
            rw [rotate_blocks_length]
            exact h5
      | hardDrop =>
          have he : applyInput s now .hardDrop = { s with
              tetromino := (dropLoop s.game s.tetromino).move ⟨0, -1⟩
              lastDrop := now - 10000 } := rfl
          rw [he]
          refine ⟨h1, h2, ?_, h4, ?_, h6, h7, h8⟩
          · intro hgo
            exact dropLoop_moveUp_safe s.game s.tetromino (h3 hgo)
          · rw [Tetromino.move_length, dropLoop_blocks_length]
            exact h5
  | tick now idx hguard =>
      by_cases hcol : s.game.checkCollision (s.tetromino.move VEC_DOWN) = true
      · rw [gravityStep_lock s now idx hcol]
        have hrc := clearLines_rows_cols (s.game.lockTetromino s.tetromino)
        refine ⟨?_, ?_, ?_, ?_, h6, mkTetromino_blocks_length idx, ?_, ?_⟩
        · show (s.game.lockTetromino s.tetromino).clearLines.1.rows = GRID_ROWS
          rw [hrc.1]
          exact h1
        · show (s.game.lockTetromino s.tetromino).clearLines.1.cols = GRID_COLS
          rw [hrc.2]
          exact h2
        · intro hgo
          simp only [Bool.or_eq_false_iff] at hgo
          exact hgo.2
        · show (s.game.lockTetromino s.tetromino).clearLines.1.noFullRows
          apply clearLines_fst_noFullRows
          show 0 < (s.game.lockTetromino s.tetromino).cols
          have : (s.game.lockTetromino s.tetromino).cols = s.game.cols := rfl
          rw [this, h2]
          norm_num [GRID_COLS]
        · -- drop interval stays at most 800
          by_cases hcl : 0 < (s.game.lockTetromino s.tetromino).clearLines.2
          · rw [applyClearScoring_pos s _ hcl]
            show max 100 (800 - (((s.totalLines
              + (s.game.lockTetromino s.tetromino).clearLines.2) / 10 + 1 : Nat) : Int) * 50)
                ≤ 800
            have hle : (1 : Int) ≤ (((s.totalLines
                + (s.game.lockTetromino s.tetromino).clearLines.2) / 10 + 1 : Nat) : Int) := by
              push_cast
              omega
            omega
          · rw [Nat.not_lt, Nat.le_zero] at hcl
            rw [hcl, applyClearScoring_zero]
            exact h7
        · -- high score stays the maximum of the loaded value and the score
          by_cases hcl : 0 < (s.game.lockTetromino s.tetromino).clearLines.2
          · rw [applyClearScoring_pos s _ hcl]
            show (if s.highscore < s.score + lineScores.getD _ 0 * s.level
                then s.score + lineScores.getD _ 0 * s.level else s.highscore)
              = max hs (s.score + lineScores.getD _ 0 * s.level)
            rw [h8]
            split
            · omega
            · omega
          · rw [Nat.not_lt, Nat.le_zero] at hcl
            rw [hcl, applyClearScoring_zero]
            exact h8
      · have hcol2 : s.game.checkCollision (s.tetromino.move VEC_DOWN) = false := by
          simpa using hcol
        rw [gravityStep_fall s now idx hcol2]
        refine ⟨h1, h2, fun _ => hcol2, h4, ?_, h6, h7, h8⟩
        rw [Tetromino.move_length]
        exact h5

theorem reachable_inv (hs : Nat) {s : GameState} (h : Reachable hs s) : LoopInv hs s := by
  induction h with
  | init t0 i j => exact initState_inv hs t0 i j
  | step hr hstep ih => exact step_inv hs ih hstep

/- The ten claims. -/

/-- C1: clearLines returns the number of full rows, where a row is full
iff every column in it is occupied; when no row is full it returns 0 and
leaves the grid unchanged; otherwise the non full rows are copied
downward, bottom aligned and in their original relative order, the
vacated top rows become empty cells, and the returned count equals the
number of removed rows. -/
theorem C1_clearLines_correct (g : Tetris) :
    g.clearLines.2 = ((List.range g.rows).filter (fun y =>
      (List.range g.cols).all (fun x =>
        (g.grid.getD (y * g.cols + x) Block.default).occupied))).length ∧
    (g.clearLines.2 = 0 → g.clearLines.1 = g) ∧
    g.clearLines.1.rows = g.rows ∧
    g.clearLines.1.cols = g.cols ∧
    (0 < g.clearLines.2 →
      g.clearLines.1.grid.length = g.rows * g.cols ∧
      ∀ r, r < g.rows → ∀ x, x < g.cols →
        g.clearLines.1.grid.getD (r * g.cols + x) Block.default =
          (if r < g.clearLines.2 then Block.default
           else g.grid.getD (g.keptRows.getD (r - g.clearLines.2) 0 * g.cols + x)
             Block.default)) := by
  have hsnd := clearLines_snd_eq g
  refine ⟨by rw [hsnd]; rfl, ?_, (clearLines_rows_cols g).1, (clearLines_rows_cols g).2, ?_⟩
  · intro h0
    rw [hsnd] at h0
    rw [clearLines_eq_nil g (List.length_eq_zero.1 h0)]
  · intro hpos
    rw [hsnd] at hpos
    have hne : g.linesToClear ≠ [] := by
      intro h
      rw [h] at hpos
      exact absurd hpos (by simp)
    obtain ⟨hlen, hcell⟩ := clearLines_cells g hne
    refine ⟨hlen, ?_⟩
    intro r hr x hx
    rw [hcell r hr x hx, hsnd]

/-- C1 witness: on the concrete two by two board with a full top row,
clearLines reports one cleared row and row 1 of the result is the copy
of the old non full row. -/
theorem C1_witness :
    0 < exBoard.clearLines.2 ∧
    exBoard.clearLines.1.grid.getD (1 * exBoard.cols + 0) Block.default =
      (if 1 < exBoard.clearLines.2 then Block.default
       else exBoard.grid.getD
         (exBoard.keptRows.getD (1 - exBoard.clearLines.2) 0 * exBoard.cols + 0)
         Block.default) := by
  refine ⟨by decide, ?_⟩
  exact ((C1_clearLines_correct exBoard).2.2.2.2 (by decide)).2 1 (by decide) 0 (by decide)

/-- C2: rotate is the identity for shapeIdx 0, the O piece; for every
other piece the block at relative offset (rx, ry) from the pivot, which
is blocks[0] rather than the geometric centroid, is mapped to
pivot + (-ry, rx). -/
theorem C2_rotate_spec (t : Tetromino) :
    (t.shapeIdx = 0 → t.rotate = t) ∧
    (t.shapeIdx ≠ 0 →
      t.rotate.blocks.length = t.blocks.length ∧
      ∀ i, i < t.blocks.length →
        t.rotate.blocks.getD i ⟨0, 0⟩ =
          t.blocks.headD ⟨0, 0⟩ +
            ⟨-((t.blocks.getD i ⟨0, 0⟩).y - (t.blocks.headD ⟨0, 0⟩).y),
              (t.blocks.getD i ⟨0, 0⟩).x - (t.blocks.headD ⟨0, 0⟩).x⟩) := by
  constructor
  · intro h
    rw [Tetromino.rotate, if_pos h]
  · intro h
    simp only [Tetromino.rotate, if_neg h]
    constructor
    · simp
    · intro i hi
      rw [List.getD_eq_getElem _ _ (by simpa using hi), List.getD_eq_getElem _ _ hi,
        List.getElem_map, Position.add_def]
      simp only [Position.mk.injEq]
      exact ⟨by ring, trivial⟩

/-- C2 witness: rotating the O piece leaves it unchanged, and rotating
the concrete T piece maps its second block by the pivot formula. -/
theorem C2_witness :
    (mkTetromino 0).rotate = mkTetromino 0 ∧
    (mkTetromino 4).rotate.blocks.getD 1 ⟨0, 0⟩ =
      (mkTetromino 4).blocks.headD ⟨0, 0⟩ +
        ⟨-(((mkTetromino 4).blocks.getD 1 ⟨0, 0⟩).y
            - ((mkTetromino 4).blocks.headD ⟨0, 0⟩).y),
          ((mkTetromino 4).blocks.getD 1 ⟨0, 0⟩).x
            - ((mkTetromino 4).blocks.headD ⟨0, 0⟩).x⟩ := by
  refine ⟨(C2_rotate_spec (mkTetromino 0)).1 (by decide), ?_⟩
  exact ((C2_rotate_spec (mkTetromino 4)).2 (by decide)).2 1 (by decide)

/-- C3: a rotate input tries, in this order, the rotated piece, the
rotated piece shifted one cell right and the rotated piece shifted two
cells left of the unshifted rotated position; the first candidate that
does not collide is committed and if all three collide the active piece
is left unchanged. -/
theorem C3_rotate_input_order (s : GameState) (now : Int) :
    applyInput s now .rotateKey =
      (if s.game.checkCollision s.tetromino.rotate = false then
        { s with tetromino := s.tetromino.rotate }
      else if s.game.checkCollision (s.tetromino.rotate.move ⟨1, 0⟩) = false then
        { s with tetromino := s.tetromino.rotate.move ⟨1, 0⟩ }
      else if s.game.checkCollision (s.tetromino.rotate.move ⟨-2, 0⟩) = false then
        { s with tetromino := s.tetromino.rotate.move ⟨-2, 0⟩ }
      else s) := by
  have hL2 : (s.tetromino.rotate.move VEC_LEFT).move VEC_LEFT
      = s.tetromino.rotate.move ⟨-2, 0⟩ := by
    rw [Tetromino.move_move]
    norm_num [VEC_LEFT, Position.add_def]
  have hR : VEC_RIGHT = (⟨1, 0⟩ : Position) := rfl
  simp only [applyInput, hL2, hR, Bool.not_eq_true']

/-- C4: at a lock event with cleared > 0 the score grows by exactly
lineScores[cleared] * level, read from the table [0, 40, 100, 300, 1200]
with the level in effect before the update; then totalLines grows by
cleared, the level becomes totalLines / 10 + 1 by integer division, the
drop interval becomes max(100, 800 - level * 50) milliseconds and the in
memory high score is set to the score whenever the score exceeds it;
when cleared = 0 none of these fields change. -/
theorem C4_scoring (s : GameState) (now : Int) (idx : Fin 7)
    (hlock : s.game.checkCollision (s.tetromino.move VEC_DOWN) = true) :
    (0 < (s.game.lockTetromino s.tetromino).clearLines.2 →
      (gravityStep s now idx).score = s.score
          + [0, 40, 100, 300, 1200].getD
              (s.game.lockTetromino s.tetromino).clearLines.2 0 * s.level ∧
      (gravityStep s now idx).totalLines
          = s.totalLines + (s.game.lockTetromino s.tetromino).clearLines.2 ∧
      (gravityStep s now idx).level = (gravityStep s now idx).totalLines / 10 + 1 ∧
      (gravityStep s now idx).dropIntervalMs
          = max 100 (800 - ((gravityStep s now idx).level : Int) * 50) ∧
      (gravityStep s now idx).highscore
          = (if s.highscore < (gravityStep s now idx).score
             then (gravityStep s now idx).score else s.highscore)) ∧
    ((s.game.lockTetromino s.tetromino).clearLines.2 = 0 →
      (gravityStep s now idx).score = s.score ∧
      (gravityStep s now idx).totalLines = s.totalLines ∧
      (gravityStep s now idx).level = s.level ∧
      (gravityStep s now idx).dropIntervalMs = s.dropIntervalMs ∧
      (gravityStep s now idx).highscore = s.highscore) := by
  rw [gravityStep_lock s now idx hlock]
  constructor
  · intro hpos
    rw [applyClearScoring_pos s _ hpos]
    exact ⟨rfl, rfl, rfl, rfl, rfl⟩
  · intro hz
    rw [hz, applyClearScoring_zero]
    exact ⟨rfl, rfl, rfl, rfl, rfl⟩

/-- C4 witness: on the concrete one by one state the gravity tick locks
the piece, clears one line and adds 40 * level to the score. -/
theorem C4_witness :
    (gravityStep c4State 0 0).score = c4State.score
        + [0, 40, 100, 300, 1200].getD
            (c4State.game.lockTetromino c4State.tetromino).clearLines.2 0
          * c4State.level := by
  exact ((C4_scoring c4State 0 0 (by decide)).1 (by decide)).1

/-- C5: for a reachable running state whose active piece does not
collide, the hard drop input moves the active piece exactly to the
position getGhost reports, leaves the board unchanged, backdates the
drop timestamp by ten seconds, so far that the next gravity check fires
at any later time, and that check locks the piece because the piece can
no longer move down. -/
theorem C5_hardDrop_ghost (hs : Nat) (s : GameState) (hr : Reachable hs s)
    (hgo : s.gameOver = false)
    (hnc : s.game.checkCollision s.tetromino = false) (now : Int) :
    (applyInput s now .hardDrop).tetromino = s.game.getGhost s.tetromino ∧
    (applyInput s now .hardDrop).game = s.game ∧
    (applyInput s now .hardDrop).lastDrop = now - 10000 ∧
    (∀ now2 : Int, now ≤ now2 →
      now2 - (applyInput s now .hardDrop).lastDrop
        > (applyInput s now .hardDrop).dropIntervalMs) ∧
    (applyInput s now .hardDrop).game.checkCollision
      ((applyInput s now .hardDrop).tetromino.move VEC_DOWN) = true := by
  obtain ⟨-, -, -, -, h5, -, h7, -⟩ := reachable_inv hs hr
  have hne : s.tetromino.blocks ≠ [] := by
    intro h
    rw [h] at h5
    exact absurd h5 (by simp)
  refine ⟨?_, rfl, rfl, ?_, ?_⟩
  · show (dropLoop s.game s.tetromino).move ⟨0, -1⟩ = s.game.getGhost s.tetromino
    rw [Tetris.getGhost, ghostLoop_eq_dropLoop]
  · intro now2 hnow2
    show now2 - (now - 10000) > s.dropIntervalMs
    omega
  · exact dropLoop_result_rests s.game s.tetromino hne hnc

/-- C5 witness: hard dropping the freshly spawned O piece on the empty
board realizes every clause of the hard drop specification. -/
theorem C5_witness :
    (applyInput (initState 0 0 0 0) 3 .hardDrop).tetromino
        = (initState 0 0 0 0).game.getGhost (initState 0 0 0 0).tetromino ∧
    (applyInput (initState 0 0 0 0) 3 .hardDrop).game = (initState 0 0 0 0).game ∧
    (applyInput (initState 0 0 0 0) 3 .hardDrop).lastDrop = 3 - 10000 ∧
    (∀ now2 : Int, 3 ≤ now2 →
      now2 - (applyInput (initState 0 0 0 0) 3 .hardDrop).lastDrop
        > (applyInput (initState 0 0 0 0) 3 .hardDrop).dropIntervalMs) ∧
    (applyInput (initState 0 0 0 0) 3 .hardDrop).game.checkCollision
      ((applyInput (initState 0 0 0 0) 3 .hardDrop).tetromino.move VEC_DOWN) = true :=
  C5_hardDrop_ghost 0 (initState 0 0 0 0) (Reachable.init 0 0 0) rfl (by decide) 3

/-- C6: a left, right or soft drop input whose translated candidate
collides leaves the entire state unchanged, in particular the active
piece blocks and the board, with no error signalled. -/
theorem C6_rejected_moves (s : GameState) (now : Int) :
    (s.game.checkCollision (s.tetromino.move VEC_LEFT) = true →
      applyInput s now .left = s) ∧
    (s.game.checkCollision (s.tetromino.move VEC_RIGHT) = true →
      applyInput s now .right = s) ∧
    (s.game.checkCollision (s.tetromino.move VEC_DOWN) = true →
      applyInput s now .softDrop = s) := by
  refine ⟨?_, ?_, ?_⟩ <;> intro h <;> simp [applyInput, h]

/-- C6 witness: on the one by one board every one of the three moves
collides and leaves the state untouched. -/
theorem C6_witness :
    applyInput c6State 0 .left = c6State ∧
    applyInput c6State 0 .right = c6State ∧
    applyInput c6State 0 .softDrop = c6State :=
  ⟨(C6_rejected_moves c6State 0).1 (by decide),
   (C6_rejected_moves c6State 0).2.1 (by decide),
   (C6_rejected_moves c6State 0).2.2 (by decide)⟩

/-- C7: isOccupied is a total function with no error case: it returns
true whenever the position lies outside the board in any direction, and
on an in bounds position it returns the stored occupied flag, touching
the grid storage only in that case. -/
theorem C7_isOccupied_total (g : Tetris) (p : Position) :
    ((p.x < 0 ∨ (g.cols : Int) ≤ p.x ∨ p.y < 0 ∨ (g.rows : Int) ≤ p.y) →
      g.isOccupied p = true) ∧
    (0 ≤ p.x → p.x < (g.cols : Int) → 0 ≤ p.y → p.y < (g.rows : Int) →
      g.isOccupied p
        = (g.grid.getD (p.y * (g.cols : Int) + p.x).toNat Block.default).occupied) := by
  constructor
  · intro h
    have hin : g.isInside p = false := by
      rw [Tetris.isInside]
      simp only [Bool.and_eq_false_iff, decide_eq_false_iff_not, not_le, not_lt]
      omega
    rw [Tetris.isOccupied, hin]
    rfl
  · intro h1 h2 h3 h4
    have hin : g.isInside p = true := by
      rw [Tetris.isInside]
      simp only [Bool.and_eq_true, decide_eq_true_eq]
      exact ⟨⟨⟨h1, h2⟩, h3⟩, h4⟩
    rw [Tetris.isOccupied, hin]
    rfl

/-- C7 witness: on the concrete board a position left of the wall reads
occupied, and an interior position reads its stored cell flag. -/
theorem C7_witness :
    exBoard.isOccupied ⟨-1, 0⟩ = true ∧
    exBoard.isOccupied ⟨0, 1⟩
      = (exBoard.grid.getD (((1 : Int)) * (exBoard.cols : Int) + 0).toNat
          Block.default).occupied :=
  ⟨(C7_isOccupied_total exBoard ⟨-1, 0⟩).1 (Or.inl (by decide)),
   (C7_isOccupied_total exBoard ⟨0, 1⟩).2 (by decide) (by decide) (by decide) (by decide)⟩

/-- C8: at session end the high score file is overwritten with the
final score exactly when the final score is greater than or equal to the
value stored at startup, ties included; a missing or unreadable file
stands for a startup value of 0. -/
theorem C8_highscore_persistence (file : Option Nat) (s : GameState)
    (hr : Reachable (loadHighScore file) s) :
    sessionEndWrite s
      = (if loadHighScore file ≤ s.score then some s.score else none) ∧
    loadHighScore none = 0 := by
  refine ⟨?_, rfl⟩
  have h8 := (reachable_inv (loadHighScore file) hr).2.2.2.2.2.2.2
  rw [sessionEndWrite, h8]
  by_cases h : loadHighScore file ≤ s.score
  · rw [if_pos (by omega), if_pos h]
  · rw [if_neg (by omega), if_neg h]

/-- C8 witness: a fresh session started with a stored high score of 5
and final score 0 does not rewrite the file. -/
theorem C8_witness :
    sessionEndWrite (initState (loadHighScore (some 5)) 0 0 0)
      = (if loadHighScore (some 5) ≤ (initState (loadHighScore (some 5)) 0 0 0).score
         then some (initState (loadHighScore (some 5)) 0 0 0).score else none) ∧
    loadHighScore none = 0 :=
  C8_highscore_persistence (some 5) (initState (loadHighScore (some 5)) 0 0 0)
    (Reachable.init 0 0 0)

/-- C9: in every reachable state in which the session is not over, the
active piece does not collide with the board; every committed move,
rotation, drop, gravity step and spawn preserves this and a blocked
spawn ends the session instead. -/
theorem C9_active_piece_safe (hs : Nat) (s : GameState) (hr : Reachable hs s)
    (hgo : s.gameOver = false) :
    s.game.checkCollision s.tetromino = false :=
  (reachable_inv hs hr).2.2.1 hgo

/-- C9 witness: the freshly spawned piece of a new session does not
collide. -/
theorem C9_witness :
    (initState 0 0 2 3).game.checkCollision (initState 0 0 2 3).tetromino = false :=
  C9_active_piece_safe 0 (initState 0 0 2 3) (Reachable.init 0 2 3) rfl

/-- C10: at every reachable lock event the board has no full row before
the lock, clearLines removes at most 4 rows because locking adds at most
four occupied cells, and hence the read of the five entry lineScores
table is in bounds. -/
theorem C10_cleared_bounded (hs : Nat) (s : GameState) (hr : Reachable hs s)
    (hgo : s.gameOver = false)
    (hlock : s.game.checkCollision (s.tetromino.move VEC_DOWN) = true) :
    s.game.linesToClear = [] ∧
    (s.game.lockTetromino s.tetromino).clearLines.2 ≤ 4 ∧
    (s.game.lockTetromino s.tetromino).clearLines.2 < lineScores.length := by
  obtain ⟨-, -, -, h4, h5, -, -, -⟩ := reachable_inv hs hr
  have hb := cleared_le_blocks s.game s.tetromino h4
  rw [h5] at hb
  have hlen : lineScores.length = 5 := rfl
  exact ⟨h4, hb, by omega⟩

/-- C10 witness: after hard dropping the first piece of a fresh session
the next gravity tick is a lock event, and the cleared count is within
the table bounds. -/
theorem C10_witness :
    (applyInput (initState 0 0 0 0) 5 .hardDrop).game.linesToClear = [] ∧
    ((applyInput (initState 0 0 0 0) 5 .hardDrop).game.lockTetromino
      (applyInput (initState 0 0 0 0) 5 .hardDrop).tetromino).clearLines.2 ≤ 4 ∧
    ((applyInput (initState 0 0 0 0) 5 .hardDrop).game.lockTetromino
      (applyInput (initState 0 0 0 0) 5 .hardDrop).tetromino).clearLines.2
        < lineScores.length := by
  refine C10_cleared_bounded 0 (applyInput (initState 0 0 0 0) 5 .hardDrop)
    (Reachable.step (Reachable.init 0 0 0) (Step.input (initState 0 0 0 0) .hardDrop 5))
    rfl ?_
  exact dropLoop_result_rests (initState 0 0 0 0).game (initState 0 0 0 0).tetromino
    (by decide) (by decide)
